import Mathlib

/-!
Shallow embedding of the storage-engine core of the bustub repository:
the copy-on-write trie (src/primer/trie.cpp), the LRU-K replacer
(src/buffer/lru_k_replacer.cpp), the buffer pool manager
(src/buffer/buffer_pool_manager.cpp) and the basic page guard
(src/storage/page/page_guard.cpp).

Conventions of the embedding:
- `std::map<char, shared_ptr<TrieNode>>` is modelled as a key-sorted
  association list `List (Char × TrieNode)`;
- C++ mutexes are not modelled (every operation is a critical section);
- disk requests produced through the disk scheduler are modelled as a
  trace (`List DiskReq`) appended to in enqueue order, snapshotting the
  page data at scheduling time;
- a C++ function that can crash (null dereference) is modelled with an
  `Option` result, `none` standing for the crash.
-/

namespace Bustub

/-- Modelled from the spec and trie.cpp: a trie node holds a
`char → child` map and an `is_value_node_` flag; the value-carrying
subtype `TrieNodeWithValue` additionally holds a payload (modelled at a
single value type, `Nat`) and its constructor sets the flag.  `value =
some v` means the dynamic type of the node is `TrieNodeWithValue`
(so the `dynamic_cast` in `Trie::Get` succeeds); the flag is stored
separately because `Trie::Remove` clears the flag without changing the
dynamic type of the node. -/
inductive TrieNode : Type where
  | node (children : List (Char × TrieNode)) (value : Option Nat) (is_value_node : Bool)

/-- Children map of a trie node. -/
def TrieNode.children : TrieNode → List (Char × TrieNode)
  | .node cs _ _ => cs

/-- Payload of a trie node (`some` iff the node is dynamically a `TrieNodeWithValue`). -/
def TrieNode.value : TrieNode → Option Nat
  | .node _ v _ => v

/-- The `is_value_node_` flag of a trie node. -/
def TrieNode.is_value_node : TrieNode → Bool
  | .node _ _ f => f

/-- A trie is a handle to an optional root node (`root_` may be null). -/
abbrev Trie := Option TrieNode

/-- Lookup in the ordered children map (`children_.find(ch)` / `children_.at(ch)`). -/
def findChild : List (Char × TrieNode) → Char → Option TrieNode
  | [], _ => none
  | (c', n) :: rest, c => if c = c' then some n else findChild rest c

/-- Insert-or-assign into the key-sorted children map.  `trie.cpp` uses
`insert` only after a failed `find` and `operator[]` assignment only
after a successful `find`, so both are instances of this operation. -/
def insertChild (c : Char) (n : TrieNode) : List (Char × TrieNode) → List (Char × TrieNode)
  | [] => [(c, n)]
  | (c', n') :: rest =>
    if c < c' then (c, n) :: (c', n') :: rest
    else if c = c' then (c, n) :: rest
    else (c', n') :: insertChild c n rest

/-- Erase a key from the children map (`children_.erase(child_it)`);
keys are unique, so erasing the found entry is erasing every entry with
that key. -/
def eraseChild (c : Char) : List (Char × TrieNode) → List (Char × TrieNode)
  | [] => []
  | (c', n) :: rest => if c' = c then eraseChild c rest else (c', n) :: eraseChild c rest

/-- The loop of `Trie::Get`: walk the children maps along the key.  The
current node pointer may be null (`!current` is tested each iteration). -/
def walk : Option TrieNode → List Char → Option TrieNode
  | cur, [] => cur
  | none, _ :: _ => none
  | some n, c :: rest =>
    match findChild n.children c with
    | none => none
    | some child => walk (some child) rest

/-- Embeds `Trie::Get<T>` (trie.cpp lines 16-48): walk the key, then
`dynamic_cast` to the value subtype (modelled by `value` being `some`;
`dynamic_cast` of a null pointer is well defined and yields null), then
test the `is_value_node_` flag. -/
def Trie.Get (t : Trie) (key : List Char) : Option Nat :=
  match walk t key with
  | none => none
  | some n =>
    match n.value with
    | none => none
    | some v => if n.is_value_node then some v else none

/-- Embeds the recursive helper `Putcycle<T>` (trie.cpp lines 50-80).
Callers always pass a non-empty key (`key.at(0)` would throw on an empty
key); the `[]` equation is never reached from `Trie.Put`. -/
def Putcycle (v : Nat) : TrieNode → List Char → TrieNode
  | root, [] => root
  | root, c :: rest =>
    match findChild root.children c with
    | some child =>
      match rest with
      | [] =>
        -- make_shared<TrieNodeWithValue<T>>(iter->children_, value)
        .node (insertChild c (.node child.children (some v) true) root.children)
          root.value root.is_value_node
      | _ :: _ =>
        -- clone the child, recurse into the clone, reassign it
        .node (insertChild c (Putcycle v child rest) root.children)
          root.value root.is_value_node
    | none =>
      match rest with
      | [] =>
        -- insert a fresh value node with no children
        .node (insertChild c (.node [] (some v) true) root.children)
          root.value root.is_value_node
      | _ :: _ =>
        -- insert a fresh plain node and keep recursing
        .node (insertChild c (Putcycle v (.node [] none false) rest) root.children)
          root.value root.is_value_node

/-- Embeds `Trie::Put<T>` (trie.cpp lines 87-119).  The result is
`none` when the C++ code crashes: for an empty key the code evaluates
`root_->children_` without checking `root_` for null, so calling `Put`
with an empty key on the empty trie dereferences a null pointer. -/
def Trie.Put (t : Trie) (key : List Char) (v : Nat) : Option Trie :=
  match key with
  | [] =>
    match t with
    | none => none   -- root_->children_ on a null root_: null dereference
    | some root =>
      if root.children.isEmpty then
        some (some (.node [] (some v) true))
      else
        some (some (.node root.children (some v) true))
  | _ :: _ =>
    match t with
    | none => some (some (Putcycle v (.node [] none false) key))
    | some root => some (some (Putcycle v root key))

/-- Embeds the walk, clear and bottom-up pruning of `Trie::Remove`
(trie.cpp lines 150-179) for a non-empty key, as a recursion on the key.
`none` means the key was not found or the terminal node was not flagged,
in which case the C++ code returns the original trie.  Otherwise the
result is the updated node: at each level the freshly updated child is
erased from its parent when it has no children and is not a value node
(the stack-based loop with `break` in the source prunes exactly these
nodes, because once a node is kept its parent necessarily keeps a
child). -/
def removeAt : TrieNode → List Char → Option TrieNode
  | n, [] => if n.is_value_node then some (.node n.children n.value false) else none
  | n, c :: rest =>
    match findChild n.children c with
    | none => none
    | some child =>
      match removeAt child rest with
      | none => none
      | some child2 =>
        if child2.children.isEmpty && !child2.is_value_node then
          some (.node (eraseChild c n.children) n.value n.is_value_node)
        else
          some (.node (insertChild c child2 n.children) n.value n.is_value_node)

/-- Embeds `Trie::Remove` (trie.cpp lines 129-185).  A null root returns
the trie unchanged.  An empty key on a flagged root clears the flag and
returns early, skipping the final root-nullification; an empty key on an
unflagged root returns the trie unchanged.  For a non-empty key the walk
and pruning are `removeAt`, followed by nullifying the root when it
carries no flag and no children. -/
def Trie.Remove (t : Trie) (key : List Char) : Trie :=
  match t with
  | none => t
  | some root =>
    match key with
    | [] =>
      if root.is_value_node then some (.node root.children root.value false) else t
    | _ :: _ =>
      match removeAt root key with
      | none => t
      | some root2 =>
        if !root2.is_value_node && root2.children.isEmpty then none else some root2

mutual

/-- Well-formedness of a trie node as produced by the operations in
trie.cpp: the `is_value_node_` flag implies a payload (only the
`TrieNodeWithValue` constructors set the flag) and every strict
descendant that is kept in a children map is either flagged or has a
child of its own (the pruning loop of `Remove` maintains this and `Put`
only creates such nodes). -/
def nodeOk : TrieNode → Bool
  | .node cs v flag => (!flag || v.isSome) && childrenOk cs

/-- Well-formedness of a children map: every entry is a live
(value-carrying or non-leaf) well-formed node. -/
def childrenOk : List (Char × TrieNode) → Bool
  | [] => true
  | (_, n) :: rest => (n.is_value_node || !n.children.isEmpty) && nodeOk n && childrenOk rest

end

/-- Well-formedness of a trie handle; the root itself is allowed to be a
valueless leaf (Remove with an empty key produces such a root). -/
def trieOk : Trie → Bool
  | none => true
  | some r => nodeOk r

/-- Projection of the children map computes. -/
@[simp] theorem children_node (cs : List (Char × TrieNode)) (v : Option Nat) (f : Bool) :
    (TrieNode.node cs v f).children = cs := rfl

/-- Projection of the payload computes. -/
@[simp] theorem value_node (cs : List (Char × TrieNode)) (v : Option Nat) (f : Bool) :
    (TrieNode.node cs v f).value = v := rfl

/-- Projection of the flag computes. -/
@[simp] theorem is_value_node_node (cs : List (Char × TrieNode)) (v : Option Nat) (f : Bool) :
    (TrieNode.node cs v f).is_value_node = f := rfl

/-- Unfolding of `nodeOk` on a constructor. -/
@[simp] theorem nodeOk_node (cs : List (Char × TrieNode)) (v : Option Nat) (f : Bool) :
    nodeOk (.node cs v f) = ((!f || v.isSome) && childrenOk cs) := by
  simp [nodeOk]

/-- Unfolding of `childrenOk` on nil. -/
@[simp] theorem childrenOk_nil : childrenOk [] = true := by
  simp [childrenOk]

/-- Unfolding of `childrenOk` on cons. -/
@[simp] theorem childrenOk_cons (c : Char) (n : TrieNode) (rest : List (Char × TrieNode)) :
    childrenOk ((c, n) :: rest) =
      ((n.is_value_node || !n.children.isEmpty) && nodeOk n && childrenOk rest) := by
  simp [childrenOk]

/-- Lookup after insert-or-assign at the same key. -/
theorem findChild_insertChild (m : List (Char × TrieNode)) (c : Char) (n : TrieNode) :
    findChild (insertChild c n m) c = some n := by
  induction m with
  | nil => simp [insertChild, findChild]
  | cons p rest ih =>
    obtain ⟨c', n'⟩ := p
    by_cases hlt : c < c'
    · simp [insertChild, hlt, findChild]
    · by_cases heq : c = c'
      · simp [insertChild, hlt, heq, findChild]
      · simp [insertChild, hlt, heq, findChild, ih]

/-- Lookup after erasing the same key. -/
theorem findChild_eraseChild (m : List (Char × TrieNode)) (c : Char) :
    findChild (eraseChild c m) c = none := by
  induction m with
  | nil => rfl
  | cons p rest ih =>
    obtain ⟨c', n'⟩ := p
    by_cases heq : c' = c
    · simpa [eraseChild, heq] using ih
    · have hne : ¬(c = c') := fun h => heq h.symm
      simp [eraseChild, heq, findChild, hne, ih]

/-- A successful lookup returns an entry of the map. -/
theorem findChild_mem (m : List (Char × TrieNode)) (c : Char) (n : TrieNode)
    (h : findChild m c = some n) : (c, n) ∈ m := by
  induction m with
  | nil => simp [findChild] at h
  | cons p rest ih =>
    obtain ⟨c', n'⟩ := p
    by_cases heq : c = c'
    · simp [findChild, heq] at h
      simp [heq, h]
    · simp [findChild, heq] at h
      exact List.mem_cons_of_mem _ (ih h)

/-- Entries of a well-formed children map are well-formed and live. -/
theorem childrenOk_of_mem (m : List (Char × TrieNode)) (c : Char) (n : TrieNode)
    (hm : childrenOk m = true) (hmem : (c, n) ∈ m) :
    nodeOk n = true ∧ (n.is_value_node || !n.children.isEmpty) = true := by
  induction m with
  | nil => simp at hmem
  | cons p rest ih =>
    obtain ⟨c', n'⟩ := p
    simp only [childrenOk_cons, Bool.and_eq_true] at hm
    rcases List.mem_cons.mp hmem with h | h
    · cases h
      exact ⟨hm.1.2, hm.1.1⟩
    · exact ih hm.2 h

/-- Erasing preserves well-formedness of a children map. -/
theorem childrenOk_erase (m : List (Char × TrieNode)) (c : Char)
    (hm : childrenOk m = true) : childrenOk (eraseChild c m) = true := by
  induction m with
  | nil => simp [eraseChild]
  | cons p rest ih =>
    obtain ⟨c', n'⟩ := p
    simp only [childrenOk_cons, Bool.and_eq_true] at hm
    by_cases heq : c' = c
    · simpa [eraseChild, heq] using ih hm.2
    · simp only [eraseChild, heq, if_false, childrenOk_cons, Bool.and_eq_true]
      exact ⟨hm.1, ih hm.2⟩

/-- Inserting a live well-formed node preserves well-formedness of a
children map. -/
theorem childrenOk_insert (m : List (Char × TrieNode)) (c : Char) (n : TrieNode)
    (hm : childrenOk m = true) (hn : nodeOk n = true)
    (hlive : (n.is_value_node || !n.children.isEmpty) = true) :
    childrenOk (insertChild c n m) = true := by
  induction m with
  | nil => simp [insertChild, hn, hlive]
  | cons p rest ih =>
    obtain ⟨c', n'⟩ := p
    simp only [childrenOk_cons, Bool.and_eq_true] at hm
    by_cases hlt : c < c'
    · simp only [insertChild, hlt, if_true, childrenOk_cons, Bool.and_eq_true]
      exact ⟨⟨hlive, hn⟩, hm.1, hm.2⟩
    · by_cases heq : c = c'
      · subst heq
        simp [insertChild, hlt, hlive, hn, hm.2]
      · simp only [insertChild, if_neg hlt, if_neg heq, childrenOk_cons, Bool.and_eq_true]
        exact ⟨hm.1, ih hm.2⟩

/-- Unfolding of `Trie.Get` on the empty key. -/
theorem get_nil (cs : List (Char × TrieNode)) (v : Option Nat) (f : Bool) :
    Trie.Get (some (.node cs v f)) [] =
      (match v with
       | none => none
       | some x => if f then some x else none) := rfl

/-- Unfolding of `Trie.Get` one step into the walk. -/
theorem get_cons (n : TrieNode) (c : Char) (rest : List Char) :
    Trie.Get (some n) (c :: rest) =
      (match findChild n.children c with
       | none => none
       | some child => Trie.Get (some child) rest) := by
  cases h : findChild n.children c <;> simp [Trie.Get, walk, h]

/-- Getting any key from the empty trie yields `none` (helper shape). -/
theorem get_none_key (key : List Char) : Trie.Get (none : Trie) key = none := by
  cases key <;> rfl

/-- Under well-formedness, `removeAt` fails exactly when the key holds
no observable value. -/
theorem removeAt_none_iff (key : List Char) : ∀ n : TrieNode, nodeOk n = true →
    (removeAt n key = none ↔ Trie.Get (some n) key = none) := by
  induction key with
  | nil =>
    intro n hn
    obtain ⟨cs, v, flag⟩ := n
    cases flag with
    | false => cases v <;> simp [removeAt, get_nil]
    | true =>
      simp only [nodeOk_node, Bool.and_eq_true, Bool.not_true, Bool.false_or] at hn
      obtain ⟨v', rfl⟩ := Option.isSome_iff_exists.mp hn.1
      simp [removeAt, get_nil]
  | cons c rest ih =>
    intro n hn
    obtain ⟨cs, v, flag⟩ := n
    have hcs : childrenOk cs = true := by
      simp only [nodeOk_node, Bool.and_eq_true] at hn
      exact hn.2
    rw [get_cons]
    cases hfind : findChild (TrieNode.node cs v flag).children c with
    | none => simp only [removeAt, children_node] at hfind ⊢; simp [hfind]
    | some child =>
      simp only [children_node] at hfind
      have hchild : nodeOk child = true :=
        (childrenOk_of_mem cs c child hcs (findChild_mem _ _ _ hfind)).1
      have hiff := ih child hchild
      cases hrem : removeAt child rest with
      | none =>
        simp only [removeAt, children_node, hfind, hrem]
        simp [hiff.mp hrem]
      | some child2 =>
        simp only [removeAt, children_node, hfind, hrem]
        constructor
        · intro h
          split at h <;> simp at h
        · intro h
          have := hiff.mpr h
          rw [hrem] at this
          simp at this

/-- Under well-formedness, a successful `removeAt` clears the value at
the key and keeps every remaining descendant live and well-formed. -/
theorem removeAt_some_spec (key : List Char) : ∀ (n n2 : TrieNode) (v : Nat),
    nodeOk n = true → Trie.Get (some n) key = some v → removeAt n key = some n2 →
    Trie.Get (some n2) key = none ∧ nodeOk n2 = true := by
  induction key with
  | nil =>
    intro n n2 v hn hget hrem
    obtain ⟨cs, vv, flag⟩ := n
    cases flag with
    | false => cases vv <;> simp [get_nil] at hget
    | true =>
      simp only [removeAt, is_value_node_node, if_true] at hrem
      cases Option.some.inj hrem
      refine ⟨by cases vv <;> simp [get_nil], ?_⟩
      simp only [nodeOk_node, Bool.and_eq_true] at hn ⊢
      exact ⟨by simp, hn.2⟩
  | cons c rest ih =>
    intro n n2 v hn hget hrem
    obtain ⟨cs, vv, flag⟩ := n
    have hcs : childrenOk cs = true := by
      simp only [nodeOk_node, Bool.and_eq_true] at hn
      exact hn.2
    have hflag : (!flag || vv.isSome) = true := by
      simp only [nodeOk_node, Bool.and_eq_true] at hn
      exact hn.1
    rw [get_cons] at hget
    cases hfind : findChild (TrieNode.node cs vv flag).children c with
    | none =>
      simp only [children_node] at hfind
      simp [hfind] at hget
    | some child =>
      simp only [children_node] at hfind
      simp only [children_node, hfind] at hget
      have hchild : nodeOk child = true :=
        (childrenOk_of_mem cs c child hcs (findChild_mem _ _ _ hfind)).1
      cases hrem2 : removeAt child rest with
      | none => simp [removeAt, hfind, hrem2] at hrem
      | some child2 =>
        obtain ⟨hget2, hok2⟩ := ih child child2 v hchild hget hrem2
        simp only [removeAt, children_node, value_node, is_value_node_node, hfind, hrem2] at hrem
        by_cases hdead : (child2.children.isEmpty && !child2.is_value_node) = true
        · rw [if_pos hdead] at hrem
          cases Option.some.inj hrem
          refine ⟨?_, ?_⟩
          · rw [get_cons]
            simp [findChild_eraseChild]
          · simp only [nodeOk_node, Bool.and_eq_true]
            exact ⟨hflag, childrenOk_erase cs c hcs⟩
        · rw [if_neg hdead] at hrem
          cases Option.some.inj hrem
          have hlive : (child2.is_value_node || !child2.children.isEmpty) = true := by
            cases hiv : child2.is_value_node <;>
              cases hie : child2.children.isEmpty <;> simp_all
          refine ⟨?_, ?_⟩
          · rw [get_cons]
            simp [findChild_insertChild, hget2]
          · simp only [nodeOk_node, Bool.and_eq_true]
            exact ⟨hflag, childrenOk_insert cs c child2 hcs hok2 hlive⟩

/-- Observable-liveness shape of a result of `Trie.Remove`: every
surviving strict descendant is live (no valueless, childless interior
node survives the pruning), and for a non-empty key the surviving root
is live as well, so a fully collapsed non-empty-key removal yields the
empty trie. -/
def resultLive (t : Trie) (key : List Char) : Prop :=
  match t with
  | none => True
  | some r => nodeOk r = true ∧ (key ≠ [] → (r.is_value_node = true ∨ r.children ≠ []))

/-- C8 (amended): for every well-formed trie and key, if no value is
observable at the key then `Remove` returns the trie itself; if a value
is observable then the result no longer holds a value at the key, every
parent on the path that carries no value and has no children is pruned
bottom-up (captured by `resultLive`: no dead interior node survives, and
a non-empty-key removal whose paths all collapse yields the empty trie);
for the EMPTY key, however, the root node is retained with its flag
cleared even when it has no children (the C++ early return skips the
root-nullification), which is the one divergence from the original
claim. -/
theorem remove_clears_and_prunes (t : Trie) (key : List Char) (hwf : trieOk t = true) :
    (Trie.Get t key = none → Trie.Remove t key = t) ∧
    (∀ v, Trie.Get t key = some v →
      Trie.Get (Trie.Remove t key) key = none ∧
      resultLive (Trie.Remove t key) key ∧
      (key = [] → ∃ root, t = some root ∧
        Trie.Remove t key = some (.node root.children root.value false))) := by
  cases t with
  | none =>
    exact ⟨fun _ => rfl, fun v hv => absurd hv (by simp [get_none_key])⟩
  | some root =>
    have hroot : nodeOk root = true := by simpa [trieOk] using hwf
    cases key with
    | nil =>
      obtain ⟨cs, vv, flag⟩ := root
      cases flag with
      | false =>
        constructor
        · intro _
          simp [Trie.Remove]
        · intro v hv
          cases vv <;> simp [get_nil] at hv
      | true =>
        simp only [nodeOk_node, Bool.and_eq_true, Bool.not_true, Bool.false_or] at hroot
        obtain ⟨x, rfl⟩ := Option.isSome_iff_exists.mp hroot.1
        constructor
        · intro hv
          simp [get_nil] at hv
        · intro v _
          refine ⟨by simp [Trie.Remove, get_nil], ?_, ?_⟩
          · simp [Trie.Remove, resultLive, hroot.2]
          · intro _
            exact ⟨_, rfl, by simp [Trie.Remove]⟩
    | cons c rest =>
      cases hrem : removeAt root (c :: rest) with
      | none =>
        have hget : Trie.Get (some root) (c :: rest) = none :=
          (removeAt_none_iff _ root hroot).mp hrem
        constructor
        · intro _
          simp [Trie.Remove, hrem]
        · intro v hv
          rw [hget] at hv
          cases hv
      | some root2 =>
        have hget : Trie.Get (some root) (c :: rest) ≠ none := by
          intro h
          have h2 := (removeAt_none_iff _ root hroot).mpr h
          rw [hrem] at h2
          cases h2
        constructor
        · intro h
          exact absurd h hget
        · intro v hv
          obtain ⟨hg2, hok2⟩ := removeAt_some_spec _ root root2 v hroot hv hrem
          by_cases hdead : (!root2.is_value_node && root2.children.isEmpty) = true
          · refine ⟨?_, ?_, fun h => by cases h⟩
            · simp [Trie.Remove, hrem, hdead, get_none_key]
            · simp [Trie.Remove, hrem, hdead, resultLive]
          · refine ⟨?_, ?_, fun h => by cases h⟩
            · simp [Trie.Remove, hrem, hdead, hg2]
            · simp only [Trie.Remove, hrem, hdead, if_neg, Bool.not_eq_true, resultLive]
              refine ⟨hok2, fun _ => ?_⟩
              cases hiv : root2.is_value_node with
              | true => exact Or.inl rfl
              | false =>
                refine Or.inr ?_
                cases hie : root2.children.isEmpty with
                | true => simp [hiv, hie] at hdead
                | false =>
                  intro hc
                  rw [hc] at hie
                  simp at hie

/-- C8 counterexample: take the trie whose root is a value node with no
children (a value stored at the empty key and nothing else).  All paths
collapse after removing the empty key, so the claim demands the empty
trie, but `Trie::Remove` returns early after clearing the root flag and
the resulting trie still has a (non-null) root node. -/
theorem remove_empty_key_cex :
    Trie.Get (some (.node [] (some 1) true) : Trie) [] = some 1 ∧
    (Trie.Remove (some (.node [] (some 1) true) : Trie) []).isSome = true ∧
    Trie.Get (Trie.Remove (some (.node [] (some 1) true) : Trie) []) [] = none :=
  ⟨rfl, rfl, rfl⟩

/-- Three-node chain holding the value 1 at key "abc", as produced by
`Put` on the empty trie. -/
def tABCnode : TrieNode :=
  .node [('a', .node [('b', .node [('c', .node [] (some 1) true)] none false)] none false)]
    none false

/-- Witness for C8: instantiating the contract at the chain trie for key
"abc" shows the value is cleared and no dead interior node survives. -/
theorem remove_clears_and_prunes_w :
    Trie.Get (Trie.Remove (some tABCnode) (['a', 'b', 'c'] : List Char))
        (['a', 'b', 'c'] : List Char) = none ∧
    resultLive (Trie.Remove (some tABCnode) (['a', 'b', 'c'] : List Char))
        (['a', 'b', 'c'] : List Char) := by
  have h := remove_clears_and_prunes (some tABCnode) (['a', 'b', 'c'] : List Char)
    (by simp [trieOk, tABCnode, nodeOk, childrenOk])
  exact ⟨(h.2 1 rfl).1, (h.2 1 rfl).2.1⟩

/-- C7: evaluating `Trie::Put` at the failing input of the claim.  The
claim quantifies over every trie including the empty one and every key
including the empty one, but `Put` with an empty key evaluates
`root_->children_` without a null check, so on the empty trie it
dereferences a null pointer (modelled by the `none` result) instead of
producing a trie from which `Get` returns the value. -/
theorem put_empty_trie_empty_key_crash : Trie.Put (none : Trie) [] 0 = none := rfl

/-- C10: `Trie::Get` on the empty trie returns null for every key,
including the empty key: the loop tests `!current` before each child
lookup and the final `dynamic_cast` of a null pointer is well defined
and yields null, so the walk and the value-node test are total. -/
theorem get_on_empty_trie (key : List Char) : Trie.Get (none : Trie) key = none := by
  cases key <;> rfl

/-- Witness for C10 at a concrete key. -/
theorem get_on_empty_trie_w : Trie.Get (none : Trie) (['a'] : List Char) = none :=
  get_on_empty_trie (['a'] : List Char)

/-- Per-frame replacer bookkeeping (`LRUKNode`): the bounded access
history, newest timestamp first (`history_.push_front`), and the
evictable flag. -/
structure LRUKNode where
  history : List Nat
  is_evictable : Bool
deriving DecidableEq

/-- State of `LRUKReplacer`: the `frame → node` map `node_store_`
(association list), the `evictable_list_` in insertion order, and the
counters.  `curr_size_` and `current_timestamp_` are `size_t`. -/
structure LRUKReplacer where
  node_store : List (Nat × LRUKNode)
  evictable_list : List Nat
  curr_size : Nat
  current_timestamp : Nat
  replacer_size : Nat
  k : Nat
deriving DecidableEq

/-- Lookup in `node_store_`. -/
def storeFind : List (Nat × LRUKNode) → Nat → Option LRUKNode
  | [], _ => none
  | (f', n) :: rest, f => if f = f' then some n else storeFind rest f

/-- Insert-or-assign into `node_store_` (`operator[]` plus writes through
the reference). -/
def storeSet (f : Nat) (n : LRUKNode) : List (Nat × LRUKNode) → List (Nat × LRUKNode)
  | [] => [(f, n)]
  | (f', n') :: rest => if f = f' then (f, n) :: rest else (f', n') :: storeSet f n rest

/-- Erase a frame from `node_store_` (`node_store_.erase(frame_id)`). -/
def storeErase (f : Nat) : List (Nat × LRUKNode) → List (Nat × LRUKNode)
  | [] => []
  | (f', n) :: rest => if f' = f then storeErase f rest else (f', n) :: storeErase f rest

/-- Reading `node_store_[frame_id]`: a missing frame denotes the
default-constructed node (empty history, not evictable).  The
default-insertion side effect of `operator[]` on reads is not tracked;
it is observable only through states whose evictable frames have empty
histories, where the C++ `Evict` reads `history_.front()` of an empty
list (undefined behaviour). -/
def getNode (r : LRUKReplacer) (f : Nat) : LRUKNode :=
  (storeFind r.node_store f).getD ⟨[], false⟩

/-- Embeds `LRUKReplacer::RecordAccess` (lru_k_replacer.cpp lines
67-79): push the current timestamp at the front of the frame history,
drop the oldest entry when the history exceeds `k`, bump the clock.  An
out-of-range frame throws `std::invalid_argument` in C++; the embedding
returns the state unchanged there (no claim depends on the throw and the
buffer pool never passes an out-of-range frame). -/
def RecordAccess (r : LRUKReplacer) (f : Nat) : LRUKReplacer :=
  if r.replacer_size ≤ f then r
  else
    let node := getNode r f
    let h1 := r.current_timestamp :: node.history
    let h2 := if r.k < h1.length then h1.dropLast else h1
    { r with node_store := storeSet f ⟨h2, node.is_evictable⟩ r.node_store,
             current_timestamp := r.current_timestamp + 1 }

/-- Embeds `LRUKReplacer::SetEvictable` (lines 81-97): adjust the
evictable list and counter on a state change (`std::list::remove` drops
every occurrence), then store the new flag.  Out-of-range frames throw
in C++ and leave the state unchanged here. -/
def SetEvictable (r : LRUKReplacer) (f : Nat) (flag : Bool) : LRUKReplacer :=
  if r.replacer_size ≤ f then r
  else
    let node := getNode r f
    let r1 :=
      if flag && !node.is_evictable then
        { r with evictable_list := r.evictable_list ++ [f], curr_size := r.curr_size + 1 }
      else if !flag && node.is_evictable then
        { r with evictable_list := r.evictable_list.filter (fun x => x ≠ f),
                 curr_size := r.curr_size - 1 }
      else r
    { r1 with node_store := storeSet f ⟨node.history, flag⟩ r1.node_store }

/-- Removal of the selected victim at the end of `Evict`: erase it from
the evictable list (one list position) and from `node_store_`, and
decrement `curr_size_`. -/
def eraseVictim (r : LRUKReplacer) (v : Nat) : LRUKReplacer :=
  { r with evictable_list := r.evictable_list.erase v,
           node_store := storeErase v r.node_store,
           curr_size := r.curr_size - 1 }

/-- Left fold selecting the element minimising `g`, keeping the earlier
element on ties.  This is how both selection loops of `Evict` behave:
the `std::map` keyed by timestamp keeps the first-inserted entry per key
and yields the smallest key at `begin()`, and the second loop replaces
the candidate only on a strict `<`. -/
def argminFold (g : Nat → Nat) (a : Nat) (l : List Nat) : Nat :=
  l.foldl (fun best y => if g y < g best then y else best) a

/-- Victim of the first selection loop of `Evict`: the evictable frame
with fewer than `k` accesses whose `history_.front()` (the most recent
timestamp; histories are stored newest first) is smallest. -/
def argminFront (r : LRUKReplacer) (a : Nat) (l : List Nat) : Nat :=
  argminFold (fun f => (getNode r f).history.headD 0) a l

/-- Victim of the second selection loop of `Evict`: the evictable frame
whose `history_.back()` (the k-th most recent timestamp) is smallest. -/
def argminBack (r : LRUKReplacer) (a : Nat) (l : List Nat) : Nat :=
  argminFold (fun f => (getNode r f).history.getLastD 0) a l

/-- Embeds `LRUKReplacer::Evict` (lines 27-65): fail on an empty
evictable list; otherwise, if some evictable frame has fewer than `k`
recorded accesses, evict the one among those whose most recent access is
oldest; otherwise evict the frame whose k-th most recent access is
oldest.  The victim is removed from the evictable list and the store. -/
def Evict (r : LRUKReplacer) : Option (Nat × LRUKReplacer) :=
  match r.evictable_list with
  | [] => none
  | e :: es =>
    match (e :: es).filter (fun f => (getNode r f).history.length < r.k) with
    | [] => some (argminBack r e es, eraseVictim r (argminBack r e es))
    | g :: gs => some (argminFront r g gs, eraseVictim r (argminFront r g gs))

/-- The fold-argmin is the start element or a member of the list. -/
theorem argminFold_mem (g : Nat → Nat) (l : List Nat) : ∀ a : Nat,
    argminFold g a l = a ∨ argminFold g a l ∈ l := by
  induction l with
  | nil => intro a; exact Or.inl rfl
  | cons x xs ih =>
    intro a
    have hfold : argminFold g a (x :: xs) = argminFold g (if g x < g a then x else a) xs := rfl
    rcases Nat.lt_or_ge (g x) (g a) with hlt | hge
    · rw [hfold, if_pos hlt]
      rcases ih x with h | h
      · exact Or.inr (by rw [h]; exact List.mem_cons_self x xs)
      · exact Or.inr (List.mem_cons_of_mem x h)
    · rw [hfold, if_neg (Nat.not_lt.mpr hge)]
      rcases ih a with h | h
      · exact Or.inl h
      · exact Or.inr (List.mem_cons_of_mem x h)

/-- The fold-argmin minimises `g` over the start element and the list. -/
theorem argminFold_le (g : Nat → Nat) (l : List Nat) : ∀ a : Nat,
    g (argminFold g a l) ≤ g a ∧ ∀ y ∈ l, g (argminFold g a l) ≤ g y := by
  induction l with
  | nil => intro a; exact ⟨le_refl _, by simp⟩
  | cons x xs ih =>
    intro a
    have hfold : argminFold g a (x :: xs) = argminFold g (if g x < g a then x else a) xs := rfl
    rcases Nat.lt_or_ge (g x) (g a) with hlt | hge
    · rw [hfold, if_pos hlt]
      obtain ⟨h1, h2⟩ := ih x
      refine ⟨le_trans h1 (le_of_lt hlt), ?_⟩
      intro y hy
      rcases List.mem_cons.mp hy with rfl | hy
      · exact h1
      · exact h2 y hy
    · rw [hfold, if_neg (Nat.not_lt.mpr hge)]
      obtain ⟨h1, h2⟩ := ih a
      refine ⟨h1, ?_⟩
      intro y hy
      rcases List.mem_cons.mp hy with rfl | hy
      · exact le_trans h1 hge
      · exact h2 y hy

/-- A replacer with two frames and k = 3, reached from a fresh replacer
by the access sequence frame 0 (time 0), frame 1 (times 1 and 2),
frame 0 (time 3), after which both frames are made evictable.  Histories
(newest first): frame 0 ↦ [3, 0], frame 1 ↦ [2, 1]; both have fewer
than k accesses. -/
def rC1 : LRUKReplacer :=
  SetEvictable (SetEvictable (RecordAccess (RecordAccess (RecordAccess (RecordAccess
    ⟨[], [], 0, 0, 2, 3⟩ 0) 1) 1) 0) 0 true) 1 true

/-- C1 counterexample: in `rC1` every evictable frame has fewer than k
recorded accesses and a non-empty history.  Frame 0 has the smallest
earliest recorded access (its oldest entry, `history.getLastD`, is 0
versus 1 for frame 1), so the claim requires frame 0 to be the victim —
but `Evict` keys the under-k selection on `history_.front()`, the most
recent access, and evicts frame 1. -/
theorem lruk_evict_cex :
    (Evict rC1).map Prod.fst = some 1 ∧
    0 ∈ rC1.evictable_list ∧
    (getNode rC1 0).history.length < rC1.k ∧
    (∀ f ∈ rC1.evictable_list, (getNode rC1 f).history ≠ []) ∧
    (getNode rC1 0).history.getLastD 0 < (getNode rC1 1).history.getLastD 0 := by
  decide

/-- C1 (amended): whenever `Evict` runs on a state in which some
evictable frame has fewer than `k` recorded accesses (and every
evictable frame has at least one recorded access), the victim is such a
frame, and among those frames it is one whose MOST RECENT recorded
access timestamp is smallest (ties broken towards the front of the
evictable list); the victim is removed from the replacer. -/
theorem lruk_evict_infinite_rule (r : LRUKReplacer)
    (h1 : ∃ f ∈ r.evictable_list, (getNode r f).history.length < r.k)
    (h2 : ∀ f ∈ r.evictable_list, (getNode r f).history ≠ []) :
    ∃ v r2, Evict r = some (v, r2) ∧ r2 = eraseVictim r v ∧ v ∈ r.evictable_list ∧
      (getNode r v).history.length < r.k ∧
      ∀ g ∈ r.evictable_list, (getNode r g).history.length < r.k →
        (getNode r v).history.headD 0 ≤ (getNode r g).history.headD 0 := by
  obtain ⟨f0, hf0mem, hf0len⟩ := h1
  cases hev : r.evictable_list with
  | nil => rw [hev] at hf0mem; cases hf0mem
  | cons e es =>
    have hmemfil : f0 ∈ (e :: es).filter (fun f => (getNode r f).history.length < r.k) :=
      List.mem_filter.mpr ⟨hev ▸ hf0mem, by simpa using hf0len⟩
    cases hfil : (e :: es).filter (fun f => (getNode r f).history.length < r.k) with
    | nil => rw [hfil] at hmemfil; cases hmemfil
    | cons g gs =>
      have hev2 : Evict r =
          some (argminFront r g gs, eraseVictim r (argminFront r g gs)) := by
        unfold Evict
        rw [hev]
        simp only [hfil]
      have hmem : argminFront r g gs ∈ g :: gs := by
        rcases argminFold_mem (fun f => (getNode r f).history.headD 0) gs g with h | h
        · rw [argminFront, h]; exact List.mem_cons_self g gs
        · exact List.mem_cons_of_mem g h
      have hmemfil2 : argminFront r g gs ∈
          (e :: es).filter (fun f => (getNode r f).history.length < r.k) := by
        rw [hfil]; exact hmem
      obtain ⟨hmemev, hlenv⟩ := List.mem_filter.mp hmemfil2
      refine ⟨argminFront r g gs, _, hev2, rfl, hev ▸ hmemev, by simpa using hlenv, ?_⟩
      intro gg hggmem hgglen
      have hggfil : gg ∈ (e :: es).filter (fun f => (getNode r f).history.length < r.k) :=
        List.mem_filter.mpr ⟨hev ▸ hggmem, by simpa using hgglen⟩
      rw [hfil] at hggfil
      obtain ⟨hle1, hle2⟩ := argminFold_le (fun f => (getNode r f).history.headD 0) gs g
      rcases List.mem_cons.mp hggfil with rfl | hgg
      · exact hle1
      · exact hle2 gg hgg

/-- Witness for C1 (amended) at the concrete replacer `rC1`. -/
theorem lruk_evict_infinite_rule_w :
    ∃ v r2, Evict rC1 = some (v, r2) ∧ r2 = eraseVictim rC1 v ∧ v ∈ rC1.evictable_list ∧
      (getNode rC1 v).history.length < rC1.k ∧
      ∀ g ∈ rC1.evictable_list, (getNode rC1 g).history.length < rC1.k →
        (getNode rC1 v).history.headD 0 ≤ (getNode rC1 g).history.headD 0 :=
  lruk_evict_infinite_rule rC1 (by decide) (by decide)

/-- A pool frame (`Page`): identifier, pin count, dirty flag and an
abstract token for the `PAGE_SIZE` byte buffer.  The default-constructed
page has `page_id_ = INVALID_PAGE_ID` (negative), pin count 0, clean.
`pin_count_` is an `int` in C++; it is modelled as `Nat` because every
decrement in buffer_pool_manager.cpp is guarded by a positivity test, so
the two types agree on all values the operations produce. -/
structure Page where
  page_id : Int
  pin_count : Nat
  is_dirty : Bool
  data : Nat
deriving DecidableEq

/-- A disk request as enqueued on the disk scheduler
(disk_scheduler.cpp): direction, page id, and a snapshot of the page
data at scheduling time.  The completion promise is created and moved
into the request but its future is never awaited anywhere in
buffer_pool_manager.cpp, so it carries no information here. -/
structure DiskReq where
  is_write : Bool
  page_id : Int
  data : Nat
deriving DecidableEq

/-- State of `BufferPoolManager`: the frame array `pages_`, the page
table, the free frame list, the deallocated page-id pool `free_pages_`,
the id counter `next_page_id_`, the replacer, and the trace of disk
requests scheduled so far (in enqueue order). -/
structure BPM where
  pool_size : Nat
  pages : List Page
  page_table : List (Int × Nat)
  free_list : List Nat
  free_pages : List Int
  next_page_id : Int
  replacer : LRUKReplacer
  trace : List DiskReq
deriving DecidableEq

/-- Reading `pages_[f]`; an out-of-range read yields the default page
(the C++ would index out of bounds, which no reachable state does). -/
def pageAt (s : BPM) (f : Nat) : Page :=
  s.pages.getD f ⟨-1, 0, false, 0⟩

/-- Writing `pages_[f]`. -/
def setPage (s : BPM) (f : Nat) (p : Page) : BPM :=
  { s with pages := s.pages.set f p }

/-- Lookup in the page table (`page_table_.find`). -/
def ptFind : List (Int × Nat) → Int → Option Nat
  | [], _ => none
  | (pid', f) :: rest, pid => if pid = pid' then some f else ptFind rest pid

/-- Insert-or-assign into the page table (`page_table_[pid] = f`). -/
def ptSet (pid : Int) (f : Nat) : List (Int × Nat) → List (Int × Nat)
  | [] => [(pid, f)]
  | (pid', f') :: rest => if pid = pid' then (pid, f) :: rest else (pid', f') :: ptSet pid f rest

/-- The scan at the top of `NewPage` and `FetchPage` (lines 49-55 and
102-108): true iff every frame of the pool has a non-zero pin count. -/
def allPinned (s : BPM) : Bool :=
  (List.range s.pool_size).all (fun i => (pageAt s i).pin_count != 0)

/-- Embeds `BufferPoolManager::AllocatePage` (lines 234-242): pop a
reclaimed id from `free_pages_` if available, else bump
`next_page_id_`. -/
def AllocatePage (s : BPM) : Int × BPM :=
  match s.free_pages with
  | pid :: rest => (pid, { s with free_pages := rest })
  | [] => (s.next_page_id, { s with next_page_id := s.next_page_id + 1 })

/-- Embeds `BufferPoolManager::DeallocatePage` (lines 244-247): push the
id onto `free_pages_`. -/
def DeallocatePage (s : BPM) (pid : Int) : BPM :=
  { s with free_pages := s.free_pages ++ [pid] }

/-- The test `static_cast<size_t>(page_id) >= pool_size_` of `NewPage`
line 79: a negative id wraps to a huge `size_t`, so the condition is
`pid < 0 ∨ pool_size ≤ pid`. -/
def idOutOfPool (pid : Int) (n : Nat) : Bool :=
  pid < 0 || (n : Int) ≤ pid

/-- Securing a frame as `NewPage` does (lines 61-77): pop the free list;
otherwise evict, schedule a write of the dirty victim (without awaiting
its completion), clear the dirty flag, and push the victim page id onto
`free_pages_` — note that the victim id is NOT removed from the page
table.  `none` means no frame could be secured. -/
def newPageSecure (s : BPM) : Option (Nat × BPM) :=
  match s.free_list with
  | f :: rest => some (f, { s with free_list := rest })
  | [] =>
    match Evict s.replacer with
    | none => none
    | some (f, r2) =>
      let s1 := { s with replacer := r2 }
      let s2 :=
        if (pageAt s1 f).is_dirty then
          setPage
            { s1 with trace :=
                s1.trace ++ [⟨true, (pageAt s1 f).page_id, (pageAt s1 f).data⟩] }
            f { pageAt s1 f with is_dirty := false }
        else s1
      some (f, { s2 with free_pages := s2.free_pages ++ [(pageAt s2 f).page_id] })

/-- Embeds `BufferPoolManager::NewPage` (lines 46-98).  Returns the
frame and the allocated page id, or `none` for the C++ `nullptr`
result: when every frame is pinned, when no frame can be secured, or
when the freshly allocated page id is at least `pool_size_` (in which
case the securing and the allocation have already mutated the state).
A read of the new id is scheduled if the id is still in the page table
(the vestigial defensive branch, lines 83-86), then the frame is set
up, marked non-evictable and mapped; no access is ever recorded in the
replacer. -/
def NewPage (s : BPM) : Option (Nat × Int) × BPM :=
  if allPinned s then (none, s)
  else
    match newPageSecure s with
    | none => (none, s)
    | some (f, s3) =>
      let pid := (AllocatePage s3).1
      let s4 := (AllocatePage s3).2
      if idOutOfPool pid s4.pool_size then (none, s4)
      else
        let s5 :=
          match ptFind s4.page_table pid with
          | some _ => { s4 with trace := s4.trace ++ [⟨false, pid, (pageAt s4 f).data⟩] }
          | none => s4
        let s6 := setPage s5 f ⟨pid, 1, false, (pageAt s5 f).data⟩
        let s7 := { s6 with replacer := SetEvictable s6.replacer f false }
        (some (f, pid), { s7 with page_table := ptSet pid f s7.page_table })

/-- Embeds `BufferPoolManager::FetchPage` (lines 100-146).  On a
resident hit the pin count is incremented and the frame made
non-evictable (no access is recorded).  On a miss a frame is secured:
from the free list, or by eviction — where a dirty victim merely has
its dirty flag cleared, with NO write scheduled and no page-table
removal (lines 131-133).  A read is scheduled, the frame is set up with
an incremented pin count and made non-evictable; the page table is
never updated on this path. -/
def FetchPage (s : BPM) (pid : Int) : Option Nat × BPM :=
  if allPinned s then (none, s)
  else
    match ptFind s.page_table pid with
    | some f =>
      let s1 := setPage s f { pageAt s f with pin_count := (pageAt s f).pin_count + 1 }
      (some f, { s1 with replacer := SetEvictable s1.replacer f false })
    | none =>
      match
        (match s.free_list with
         | f :: rest => some (f, { s with free_list := rest })
         | [] =>
           match Evict s.replacer with
           | none => none
           | some (f, r2) =>
             let s1 := { s with replacer := r2 }
             some (f,
               if (pageAt s1 f).is_dirty then
                 setPage s1 f { pageAt s1 f with is_dirty := false }
               else s1)) with
      | none => (none, s)
      | some (f, s3) =>
        let s4 := { s3 with trace := s3.trace ++ [⟨false, pid, (pageAt s3 f).data⟩] }
        let s5 := setPage s4 f ⟨pid, (pageAt s4 f).pin_count + 1, false, (pageAt s4 f).data⟩
        (some f, { s5 with replacer := SetEvictable s5.replacer f false })

/-- Embeds `BufferPoolManager::UnpinPage` (lines 148-172): fail on a
non-resident page or a non-positive pin count; otherwise decrement the
pin count, OR the dirty argument into the dirty flag, and mark the
frame evictable when the pin count reaches zero. -/
def UnpinPage (s : BPM) (pid : Int) (is_dirty : Bool) : Bool × BPM :=
  match ptFind s.page_table pid with
  | none => (false, s)
  | some f =>
    let p := pageAt s f
    if p.pin_count = 0 then (false, s)
    else
      let p1 := { p with pin_count := p.pin_count - 1, is_dirty := p.is_dirty || is_dirty }
      let s1 := setPage s f p1
      if p1.pin_count = 0 then
        (true, { s1 with replacer := SetEvictable s1.replacer f true })
      else (true, s1)

/-- Embeds `BufferPoolManager::FlushPage` (lines 174-191): fail on a
non-resident page; otherwise, when the page is dirty, clear the flag
and schedule a write of its contents; then call `DeallocatePage` on the
id (the flush/removal conflation flagged by the design notes) and
return true. -/
def FlushPage (s : BPM) (pid : Int) : Bool × BPM :=
  match ptFind s.page_table pid with
  | none => (false, s)
  | some f =>
    let p := pageAt s f
    let s1 :=
      if p.is_dirty then
        setPage { s with trace := s.trace ++ [⟨true, p.page_id, p.data⟩] } f
          { p with is_dirty := false }
      else s
    (true, DeallocatePage s1 pid)

/-- Setting then reading the same list index: within bounds the new
element is read, out of bounds the write was a no-op. -/
theorem listGetDSet {α : Type} (l : List α) : ∀ (i : Nat) (a d : α),
    (l.set i a).getD i d = if i < l.length then a else l.getD i d := by
  induction l with
  | nil => intro i a d; simp [List.set]
  | cons x xs ih =>
    intro i a d
    cases i with
    | zero => simp [List.set, List.getD]
    | succ n =>
      simp only [List.set, List.getD_cons_succ, List.length_cons, Nat.succ_lt_succ_iff]
      exact ih n a d

/-- Reading a frame just written. -/
theorem pageAt_setPage (s : BPM) (f : Nat) (p : Page) :
    pageAt (setPage s f p) f = if f < s.pages.length then p else pageAt s f := by
  simp only [pageAt, setPage]
  exact listGetDSet s.pages f p _

/-- Lookup after insert-or-assign in the node store. -/
theorem storeFind_storeSet (f : Nat) (n : LRUKNode) :
    ∀ st : List (Nat × LRUKNode), storeFind (storeSet f n st) f = some n := by
  intro st
  induction st with
  | nil => simp [storeSet, storeFind]
  | cons p rest ih =>
    obtain ⟨f', n'⟩ := p
    by_cases h : f = f'
    · simp [storeSet, h, storeFind]
    · simp [storeSet, h, storeFind, ih]

/-- Node of the frame just toggled by `SetEvictable` (in range): the
history is preserved and the flag is the argument. -/
theorem getNode_SetEvictable_self (r : LRUKReplacer) (f : Nat) (flag : Bool)
    (h : f < r.replacer_size) :
    getNode (SetEvictable r f flag) f = ⟨(getNode r f).history, flag⟩ := by
  simp only [SetEvictable, if_neg (Nat.not_le.mpr h)]
  simp [getNode, storeFind_storeSet]

/-- The buffer pool never records an access: C3 evaluation state, a
fresh pool of size one (frame 0 on the free list, nothing resident,
`next_page_id_ = 0`). -/
def sC3 : BPM := ⟨1, [⟨-1, 0, false, 0⟩], [], [0], [], 0, ⟨[], [], 0, 0, 1, 2⟩, []⟩

/-- C3: evaluating the code at the failing inputs.  `NewPage` on the
fresh pool succeeds (frame 0, page id 0) but leaves the replacer
history of frame 0 empty: no `RecordAccess` call exists anywhere in
buffer_pool_manager.cpp.  `FetchPage` of a non-resident page id 5 on
the fresh pool secures frame 0, installs the page on it — and never
inserts 5 into the page table (the miss path lacks the update), so the
page table still has no entry for 5. -/
theorem bpm_no_record_no_install_bug :
    (NewPage sC3).1 = some (0, 0) ∧
    (getNode (NewPage sC3).2.replacer 0).history = [] ∧
    (FetchPage sC3 5).1 = some 0 ∧
    (pageAt (FetchPage sC3 5).2 0).page_id = 5 ∧
    ptFind (FetchPage sC3 5).2.page_table 5 = none := by
  decide

/-- C2 evaluation state: pool of size one; frame 0 holds page 7 with
pin count 0, dirty, contents 42; page 7 is resident in the page table;
the free list is empty and frame 0 is evictable in the replacer with
one recorded access. -/
def sC2 : BPM :=
  ⟨1, [⟨7, 0, true, 42⟩], [(7, 0)], [], [], 8, ⟨[(0, ⟨[0], true⟩)], [0], 1, 1, 1, 2⟩, []⟩

/-- C2: evaluating the code at the failing input.  Fetching the
non-resident page 9 evicts the dirty victim (page 7 on frame 0) and
reuses the frame for page 9 — yet no write request is ever scheduled
(the only request in the trace is the read of page 9): FetchPage's
eviction path merely clears the dirty flag, discarding the victim's
contents; and the victim's page id 7 is still mapped to frame 0 in the
page table afterwards. -/
theorem bpm_dirty_victim_bug :
    (pageAt sC2 0).is_dirty = true ∧
    ptFind sC2.page_table 9 = none ∧
    (FetchPage sC2 9).1 = some 0 ∧
    (pageAt (FetchPage sC2 9).2 0).page_id = 9 ∧
    (∀ r ∈ (FetchPage sC2 9).2.trace, r.is_write = false) ∧
    ptFind (FetchPage sC2 9).2.page_table 7 = some 0 := by
  decide

/-- C4: the `UnpinPage` contract.  The call returns false exactly when
the page is not resident or its pin count is already zero.  Otherwise
it returns true, decrements the pin count, ORs the `is_dirty` argument
into the frame's dirty flag (so a true flag is never cleared), marks
the frame evictable exactly when the pin count reaches zero, and
leaves the replacer untouched otherwise. -/
theorem unpin_contract (s : BPM) (pid : Int) (d : Bool) :
    ((UnpinPage s pid d).1 = false ↔
      ptFind s.page_table pid = none ∨
      ∃ f, ptFind s.page_table pid = some f ∧ (pageAt s f).pin_count = 0) ∧
    (∀ f, ptFind s.page_table pid = some f → 0 < (pageAt s f).pin_count →
      f < s.pages.length →
      (UnpinPage s pid d).1 = true ∧
      (pageAt (UnpinPage s pid d).2 f).pin_count = (pageAt s f).pin_count - 1 ∧
      (pageAt (UnpinPage s pid d).2 f).is_dirty = ((pageAt s f).is_dirty || d) ∧
      ((pageAt s f).pin_count = 1 → f < s.replacer.replacer_size →
        (getNode (UnpinPage s pid d).2.replacer f).is_evictable = true) ∧
      (1 < (pageAt s f).pin_count → (UnpinPage s pid d).2.replacer = s.replacer)) := by
  cases hfind : ptFind s.page_table pid with
  | none =>
    constructor
    · simp [UnpinPage, hfind]
    · intro f hf
      cases hf
  | some f =>
    by_cases hpin0 : (pageAt s f).pin_count = 0
    · have hres : UnpinPage s pid d = (false, s) := by
        simp only [UnpinPage, hfind, if_pos hpin0]
      constructor
      · rw [hres]
        exact iff_of_true rfl (Or.inr ⟨f, rfl, hpin0⟩)
      · intro f' hf' hpos _
        cases hf'
        exact absurd hpin0 (Nat.pos_iff_ne_zero.mp hpos)
    · have hres : UnpinPage s pid d =
          (true,
            if (pageAt s f).pin_count - 1 = 0 then
              { setPage s f
                  { pageAt s f with
                    pin_count := (pageAt s f).pin_count - 1,
                    is_dirty := (pageAt s f).is_dirty || d } with
                replacer :=
                  SetEvictable
                    (setPage s f
                      { pageAt s f with
                        pin_count := (pageAt s f).pin_count - 1,
                        is_dirty := (pageAt s f).is_dirty || d }).replacer f true }
            else
              setPage s f
                { pageAt s f with
                  pin_count := (pageAt s f).pin_count - 1,
                  is_dirty := (pageAt s f).is_dirty || d }) := by
        simp only [UnpinPage, hfind, if_neg hpin0]
        split <;> rfl
      constructor
      · rw [hres]
        constructor
        · intro h
          exact absurd h (by simp)
        · intro h
          rcases h with h | ⟨f', hf', hz⟩
          · exact Option.noConfusion h
          · cases hf'
            exact absurd hz hpin0
      · intro f' hf' hpos hlen
        cases hf'
        rw [hres]
        by_cases hone : (pageAt s f).pin_count - 1 = 0
        · rw [if_pos hone]
          refine ⟨rfl, ?_, ?_, ?_, ?_⟩
          · show (pageAt (setPage s f _) f).pin_count = _
            rw [pageAt_setPage, if_pos hlen]
          · show (pageAt (setPage s f _) f).is_dirty = _
            rw [pageAt_setPage, if_pos hlen]
          · intro _ hrs
            have : (setPage s f
                { pageAt s f with
                  pin_count := (pageAt s f).pin_count - 1,
                  is_dirty := (pageAt s f).is_dirty || d }).replacer = s.replacer := rfl
            rw [this, getNode_SetEvictable_self s.replacer f true hrs]
          · intro hgt
            omega
        · rw [if_neg hone]
          refine ⟨rfl, ?_, ?_, ?_, fun _ => rfl⟩
          · show (pageAt (setPage s f _) f).pin_count = _
            rw [pageAt_setPage, if_pos hlen]
          · show (pageAt (setPage s f _) f).is_dirty = _
            rw [pageAt_setPage, if_pos hlen]
          · intro hpin1 _
            omega

/-- Witness state for C4: pool of size one, page 3 resident on frame 0
with pin count 2, clean. -/
def sW4 : BPM := ⟨1, [⟨3, 2, false, 5⟩], [(3, 0)], [], [], 4, ⟨[], [], 0, 0, 1, 2⟩, []⟩

/-- Witness for C4: unpinning page 3 with the dirty argument set
succeeds, decrements the pin count to 1 and sets the dirty flag. -/
theorem unpin_contract_w :
    (UnpinPage sW4 3 true).1 = true ∧
    (pageAt (UnpinPage sW4 3 true).2 0).pin_count = 1 ∧
    (pageAt (UnpinPage sW4 3 true).2 0).is_dirty = true := by
  have h := (unpin_contract sW4 3 true).2 0 rfl (by decide) (by decide)
  refine ⟨h.1, ?_, ?_⟩
  · rw [h.2.1]
    decide
  · rw [h.2.2.1]
    decide

/-- C5 counterexample state: pool of size one, page 3 resident on
frame 0, clean, pinned once; the deallocated-id pool is empty. -/
def sC5 : BPM := ⟨1, [⟨3, 1, false, 9⟩], [(3, 0)], [], [], 4, ⟨[], [], 0, 0, 1, 2⟩, []⟩

/-- C5 counterexample: `FlushPage` on the resident page 3 returns true
but modifies the page-id allocation state, pushing 3 onto the
deallocated-id pool (`FlushPage` calls `DeallocatePage` after
flushing), contradicting the claim that the deallocated-id pool is not
modified. -/
theorem flush_dealloc_cex :
    (FlushPage sC5 3).1 = true ∧ (FlushPage sC5 3).2.free_pages ≠ sC5.free_pages := by
  decide

/-- C5 (amended): `FlushPage` on a resident page returns true, leaves
the page resident with its frame, identifier, pin count and contents
untouched, schedules a write of the page contents exactly when the page
was dirty, clears the dirty flag, and leaves the free list and
`next_page_id_` unchanged — but it additionally pushes the page id onto
the deallocated-id pool (the `DeallocatePage` call flagged in the
design notes). -/
theorem flushpage_contract (s : BPM) (pid : Int) (f : Nat)
    (hfind : ptFind s.page_table pid = some f) (hlen : f < s.pages.length) :
    (FlushPage s pid).1 = true ∧
    (FlushPage s pid).2.page_table = s.page_table ∧
    (pageAt (FlushPage s pid).2 f).is_dirty = false ∧
    (pageAt (FlushPage s pid).2 f).page_id = (pageAt s f).page_id ∧
    (pageAt (FlushPage s pid).2 f).pin_count = (pageAt s f).pin_count ∧
    (pageAt (FlushPage s pid).2 f).data = (pageAt s f).data ∧
    (FlushPage s pid).2.next_page_id = s.next_page_id ∧
    (FlushPage s pid).2.free_list = s.free_list ∧
    ((pageAt s f).is_dirty = true →
      (FlushPage s pid).2.trace =
        s.trace ++ [⟨true, (pageAt s f).page_id, (pageAt s f).data⟩]) ∧
    ((pageAt s f).is_dirty = false → (FlushPage s pid).2.trace = s.trace) ∧
    (FlushPage s pid).2.free_pages = s.free_pages ++ [pid] := by
  by_cases hd : (pageAt s f).is_dirty = true
  · have hres : FlushPage s pid =
        (true, DeallocatePage
          (setPage { s with trace :=
              s.trace ++ [⟨true, (pageAt s f).page_id, (pageAt s f).data⟩] } f
            { pageAt s f with is_dirty := false }) pid) := by
      simp only [FlushPage, hfind, if_pos hd]
    have hpp : pageAt (FlushPage s pid).2 f = { pageAt s f with is_dirty := false } := by
      rw [hres]
      show pageAt (setPage { s with trace :=
          s.trace ++ [⟨true, (pageAt s f).page_id, (pageAt s f).data⟩] } f
        { pageAt s f with is_dirty := false }) f = _
      rw [pageAt_setPage]
      exact if_pos hlen
    refine ⟨by simp [hres], by simp [hres, DeallocatePage, setPage], by simp [hpp],
      by simp [hpp], by simp [hpp], by simp [hpp], by simp [hres, DeallocatePage, setPage],
      by simp [hres, DeallocatePage, setPage], fun _ => by simp [hres, DeallocatePage, setPage],
      ?_, by simp [hres, DeallocatePage, setPage]⟩
    intro hcl
    rw [hd] at hcl
    cases hcl
  · have hd' : (pageAt s f).is_dirty = false := by
      revert hd
      cases (pageAt s f).is_dirty <;> simp
    have hres : FlushPage s pid = (true, DeallocatePage s pid) := by
      simp only [FlushPage, hfind, if_neg hd]
    have hpp : pageAt (FlushPage s pid).2 f = pageAt s f := by
      rw [hres]
      rfl
    refine ⟨by simp [hres], by simp [hres, DeallocatePage], by rw [hpp, hd'], by rw [hpp],
      by rw [hpp], by rw [hpp], by simp [hres, DeallocatePage], by simp [hres, DeallocatePage],
      ?_, fun _ => by simp [hres, DeallocatePage], by simp [hres, DeallocatePage]⟩
    intro hdt
    exact absurd hdt hd

/-- Witness state for C5: pool of size one, page 3 resident on frame 0,
dirty, contents 9, empty trace and empty deallocated-id pool. -/
def sW5 : BPM := ⟨1, [⟨3, 2, true, 9⟩], [(3, 0)], [], [], 4, ⟨[], [], 0, 0, 1, 2⟩, []⟩

/-- Witness for C5 (amended): flushing the dirty resident page 3
returns true, schedules exactly the write of its contents, clears the
dirty flag and pushes 3 onto the deallocated-id pool. -/
theorem flushpage_contract_w :
    (FlushPage sW5 3).1 = true ∧
    (FlushPage sW5 3).2.free_pages = [3] ∧
    (FlushPage sW5 3).2.trace = [⟨true, 3, 9⟩] ∧
    (pageAt (FlushPage sW5 3).2 0).is_dirty = false := by
  obtain ⟨h1, h2, h3, h4, h5, h6, h7, h8, h9, h10, h11⟩ :=
    flushpage_contract sW5 3 0 rfl (by decide)
  refine ⟨h1, ?_, ?_, h3⟩
  · rw [h11]
    decide
  · rw [h9 rfl]
    decide

/-- The replacer yields no victim exactly when the evictable list is
empty. -/
theorem evict_none_iff (r : LRUKReplacer) : Evict r = none ↔ r.evictable_list = [] := by
  cases hev : r.evictable_list with
  | nil => simp [Evict, hev]
  | cons e es =>
    simp only [Evict, hev]
    cases hfil : (e :: es).filter (fun f => (getNode r f).history.length < r.k) with
    | nil => simp [hfil]
    | cons g gs => simp [hfil]

/-- `AllocatePage` never changes the pool size. -/
theorem allocatePage_pool_size (t : BPM) : (AllocatePage t).2.pool_size = t.pool_size := by
  cases h : t.free_pages <;> simp [AllocatePage, h]

/-- Securing a frame fails exactly when the free list is empty and no
frame is evictable. -/
theorem newPageSecure_none_iff (s : BPM) :
    newPageSecure s = none ↔ (s.free_list = [] ∧ s.replacer.evictable_list = []) := by
  cases hfl : s.free_list with
  | cons f rest => simp [newPageSecure, hfl]
  | nil =>
    cases hev : Evict s.replacer with
    | none =>
      simp [newPageSecure, hfl, hev, (evict_none_iff s.replacer).mp hev]
    | some p =>
      obtain ⟨f, r2⟩ := p
      have hne : s.replacer.evictable_list ≠ [] := by
        intro h
        rw [(evict_none_iff s.replacer).mpr h] at hev
        cases hev
      simp [newPageSecure, hfl, hev, hne]

/-- Securing a frame never changes the pool size. -/
theorem newPageSecure_pool_size (s : BPM) : ∀ f s3, newPageSecure s = some (f, s3) →
    s3.pool_size = s.pool_size := by
  intro f s3 h
  cases hfl : s.free_list with
  | cons f0 rest =>
    simp only [newPageSecure, hfl, Option.some.injEq, Prod.mk.injEq] at h
    rw [← h.2]
  | nil =>
    cases hev : Evict s.replacer with
    | none => simp [newPageSecure, hfl, hev] at h
    | some p =>
      obtain ⟨f0, r2⟩ := p
      simp only [newPageSecure, hfl, hev, Option.some.injEq, Prod.mk.injEq] at h
      rw [← h.2]
      split <;> rfl

/-- C6 counterexample state: pool of size one, frame 0 free and no page
resident, with `next_page_id_` already at 1 (= pool size). -/
def sC6 : BPM := ⟨1, [⟨-1, 0, false, 0⟩], [], [0], [], 1, ⟨[], [], 0, 0, 1, 2⟩, []⟩

/-- C6 counterexample: in `sC6` no frame is pinned, yet `NewPage`
returns null — the allocated page id 1 fails the
`static_cast<size_t>(*page_id) >= pool_size_` guard — and the null
outcome is not state-preserving: the free frame was consumed and
`next_page_id_` was bumped. -/
theorem newpage_null_cex :
    allPinned sC6 = false ∧ (NewPage sC6).1 = none ∧
    (NewPage sC6).2.next_page_id ≠ sC6.next_page_id ∧
    (NewPage sC6).2.free_list ≠ sC6.free_list := by
  decide

/-- C6 (amended): `NewPage` returns null in exactly three situations:
every frame pinned (state unchanged); free list empty and no evictable
frame, so no frame can be secured (state unchanged); or the allocated
page id fails the `≥ pool_size_` guard, in which case the state keeps
the mutations of securing (free-list pop or eviction with dirty
write-back and `free_pages_` push) and of the id allocation.  In every
other case it returns the secured frame and the allocated id. -/
theorem newpage_contract (s : BPM) :
    (allPinned s = true → NewPage s = (none, s)) ∧
    (newPageSecure s = none ↔ (s.free_list = [] ∧ s.replacer.evictable_list = [])) ∧
    (allPinned s = false → newPageSecure s = none → NewPage s = (none, s)) ∧
    (∀ f s3, allPinned s = false → newPageSecure s = some (f, s3) →
      s3.pool_size = s.pool_size ∧
      (idOutOfPool (AllocatePage s3).1 s.pool_size = true →
        (NewPage s).1 = none ∧ (NewPage s).2 = (AllocatePage s3).2) ∧
      (idOutOfPool (AllocatePage s3).1 s.pool_size = false →
        (NewPage s).1 = some (f, (AllocatePage s3).1))) := by
  refine ⟨?_, newPageSecure_none_iff s, ?_, ?_⟩
  · intro hap
    simp [NewPage, hap]
  · intro hap hsec
    simp [NewPage, hap, hsec]
  · intro f s3 hap hsec
    have hps := newPageSecure_pool_size s f s3 hsec
    refine ⟨hps, ?_, ?_⟩
    · intro hid
      have hcond : idOutOfPool (AllocatePage s3).1 (AllocatePage s3).2.pool_size = true := by
        rw [allocatePage_pool_size, hps]
        exact hid
      constructor
      · simp [NewPage, hap, hsec, hcond]
      · simp [NewPage, hap, hsec, hcond]
    · intro hid
      have hcond : idOutOfPool (AllocatePage s3).1 (AllocatePage s3).2.pool_size = false := by
        rw [allocatePage_pool_size, hps]
        exact hid
      simp [NewPage, hap, hsec, hcond]

/-- Witness state for C6: a fresh pool of size one (frame 0 free,
`next_page_id_ = 0`). -/
def sW6 : BPM := ⟨1, [⟨-1, 0, false, 0⟩], [], [0], [], 0, ⟨[], [], 0, 0, 1, 2⟩, []⟩

/-- Witness for C6 (amended): on the fresh pool the guard passes and
`NewPage` returns frame 0 with page id 0. -/
theorem newpage_contract_w : (NewPage sW6).1 = some (0, 0) := by
  have h := (newpage_contract sW6).2.2.2 0 { sW6 with free_list := [] }
    (by decide) (by decide)
  have h2 := h.2.2 (by decide)
  rw [h2]
  decide

/-- State of a `BasicPageGuard` (page_guard.cpp): the pool pointer, the
page pointer, and the dirty flag.  Pointers are modelled as optional
identifiers; `none` is a null pointer.  The page identifier recorded in
`page` is what `page_->GetPageId()` would return on release. -/
structure BasicPageGuard where
  bpm : Option Nat
  page : Option Nat
  is_dirty : Bool
deriving DecidableEq

/-- Embeds `BasicPageGuard::Drop` (page_guard.cpp lines 13-18): when
both pointers are non-null, call `UnpinPage(page_->GetPageId(),
is_dirty_)` — recorded as a release event `(page id, dirty)` — and null
the page pointer, which makes a second `Drop` a no-op.  Returns the
updated guard and the release events performed. -/
def BasicPageGuard.Drop (g : BasicPageGuard) : BasicPageGuard × List (Nat × Bool) :=
  match g.page, g.bpm with
  | some pid, some _ => ({ g with page := none }, [(pid, g.is_dirty)])
  | _, _ => (g, [])

/-- Embeds the move constructor `BasicPageGuard(BasicPageGuard &&that)`
(lines 6-11): the destination copies all three fields and the source is
cleared (null pool, null page, clean), so the source releases
nothing. -/
def moveConstruct (that : BasicPageGuard) : BasicPageGuard × BasicPageGuard :=
  (⟨that.bpm, that.page, that.is_dirty⟩, ⟨none, none, false⟩)

/-- Embeds the move assignment `operator=(BasicPageGuard &&that)`
(lines 20-29) for distinct objects (`this != &that`): `Drop()` releases
the destination's old page, the three fields are copied from the
source, and then `this->bpm_ = nullptr` overwrites the destination's
pool pointer — the source is never cleared.  Returns the new
destination, the (unchanged) source, and the release events of the
initial `Drop`. -/
def moveAssign (dest that : BasicPageGuard) :
    BasicPageGuard × BasicPageGuard × List (Nat × Bool) :=
  ((⟨none, that.page, that.is_dirty⟩ : BasicPageGuard), that, (dest.Drop).2)

/-- C9: evaluating move assignment at a concrete guard.  Move-assigning
the guard `(pool 1, page 5, dirty)` into an empty guard leaves the
SOURCE fully intact — its `Drop` (run by its destructor) still releases
the pin `(5, true)` — while the destination ends with a null pool
pointer, so its `Drop` releases nothing: the state was not transferred
and the source, not the destination, performs the release.  The move
constructor (lines 6-11) clears the source as the claim describes; the
`this->bpm_ = nullptr` in `operator=` (line 26) contradicts it. -/
theorem guard_move_assign_bug :
    (moveAssign ⟨none, none, false⟩ ⟨some 1, some 5, true⟩).2.1 =
      (⟨some 1, some 5, true⟩ : BasicPageGuard) ∧
    ((moveAssign ⟨none, none, false⟩ ⟨some 1, some 5, true⟩).2.1.Drop).2 = [(5, true)] ∧
    (moveAssign ⟨none, none, false⟩ ⟨some 1, some 5, true⟩).1.bpm = none ∧
    ((moveAssign ⟨none, none, false⟩ ⟨some 1, some 5, true⟩).1.Drop).2 = [] := by
  decide

end Bustub
